import Mathlib

/-!
Verification of the Face-Gender-Recognition front end.

The repository is a browser face-recognition client.  This file gives a
shallow embedding of its core orchestration and geometry code:

* the data model (`src/types.ts`);
* the geometry mapper of `src/components/MediaDisplay.tsx`
  (`calculateScale` and the percentage-based face-overlay rectangles);
* frame capture and the live analysis loop of the camera view
  (`src/unnamed/part_000`: `captureFrame`, `analyzeRealtimeFrame`,
  `handleToggleAnalysis`, and the recording / analysis buttons);
* the batch worker pool of `src/components/BatchAnalyzer.tsx`
  (`handleFileChange`, `handleAnalyzeBatch`);
* the roster manager of `src/App.tsx` (`addPerson`, `removePerson`).

JavaScript numbers are modelled as rationals (`ℚ`), timestamps as `ℕ`,
and the single-threaded event loop as explicit step functions over
event traces: asynchronous code only interleaves at `await` points, so
each synchronous segment of the source is one atomic step.
-/

namespace FaceRec

/-! ## Data model (`src/types.ts`) -/

/-- `BoundingBox` from `src/types.ts`: fractional box, components are
fractions of the intrinsic media size. -/
structure BoundingBox where
  x : ℚ
  y : ℚ
  width : ℚ
  height : ℚ
deriving DecidableEq, Repr

/-- `DetectedFace` from `src/types.ts`. -/
structure DetectedFace where
  box : BoundingBox
  name : String
  gender : Option String
  confidence : ℚ
deriving DecidableEq, Repr

/-- The result shape returned by `detectAndRecognizeFaces`
(`{ faces, personCount }`). -/
structure RecognitionResult where
  faces : List DetectedFace
  personCount : Nat
deriving DecidableEq, Repr

/-- `KnownPerson` from `src/types.ts`. -/
structure KnownPerson where
  id : String
  name : String
  image : String
deriving DecidableEq, Repr

/-! ## Geometry mapper (`src/components/MediaDisplay.tsx`)

`calculateScale` (lines 33-46) sets
`scale = min(clientWidth/naturalWidth, clientHeight/naturalHeight)`
when both natural dimensions are positive, and otherwise leaves the
previous scale (initially `1`) untouched. -/

def calculateScale (clientWidth clientHeight naturalWidth naturalHeight
    prevScale : ℚ) : ℚ :=
  if 0 < naturalWidth ∧ 0 < naturalHeight then
    min (clientWidth / naturalWidth) (clientHeight / naturalHeight)
  else prevScale

/-- `scaledWidth = naturalWidth * scale` (MediaDisplay.tsx line 48). -/
def scaledWidth (naturalWidth scale : ℚ) : ℚ := naturalWidth * scale

/-- `scaledHeight = naturalHeight * scale` (MediaDisplay.tsx line 49). -/
def scaledHeight (naturalHeight scale : ℚ) : ℚ := naturalHeight * scale

/-- A face-overlay rectangle in screen pixels. -/
structure ScreenRect where
  left : ℚ
  top : ℚ
  width : ℚ
  height : ℚ
deriving DecidableEq, Repr

/-- The overlay rectangle MediaDisplay renders for one face
(lines 79-101): the overlay container div has size
`scaledWidth × scaledHeight` and each box component is a percentage of
that container (`left: x*100%` of `scaledWidth`, and so on), so in
pixels `left = x*scaledWidth`, `top = y*scaledHeight`,
`width = width*scaledWidth`, `height = height*scaledHeight`. -/
def mapFaceBox (box : BoundingBox) (sw sh : ℚ) : ScreenRect :=
  { left := box.x * sw
    top := box.y * sh
    width := box.width * sw
    height := box.height * sh }

/-! ## Frame capture (`src/unnamed/part_000`, `captureFrame`, lines 44-54) -/

/-- The fields of an `HTMLVideoElement` that the camera view reads. -/
structure VideoElement where
  videoWidth : Nat
  videoHeight : Nat
  paused : Bool
  ended : Bool
deriving DecidableEq, Repr

/-- Behaviour of the external browser API `canvas.toDataURL` (HTML
standard, not repository code): on a canvas one of whose dimensions is
zero it returns the degenerate URL `"data:,"`; otherwise it returns an
encoded image data URL, abstracted here as a fixed non-empty placeholder
since its payload is never inspected by this repository. -/
def toDataURL (w h : Nat) : String :=
  if w = 0 ∨ h = 0 then "data:," else "data:image/jpeg;base64"

/-- `captureFrame` (part_000 lines 44-54): returns `null` when
`videoRef.current` is absent or `canvas.getContext` yields no context;
otherwise it draws the video into a canvas sized
`videoWidth × videoHeight` and returns `canvas.toDataURL`.  Note the
source performs no check of the intrinsic dimensions. -/
def captureFrame (video : Option VideoElement) (ctxAvailable : Bool) :
    Option String :=
  match video with
  | none => none
  | some v =>
    if ctxAvailable then some (toDataURL v.videoWidth v.videoHeight)
    else none

/-! ## Roster manager (`src/App.tsx`, lines 31-47) -/

/-- The roster state: the React `knownPeople` state together with the
`localStorage` copy; `updateKnownPeople` (App.tsx lines 31-34) writes
both. -/
structure RosterState where
  knownPeople : List KnownPerson
  stored : List KnownPerson
deriving DecidableEq, Repr

def updateKnownPeople (people : List KnownPerson) : RosterState :=
  { knownPeople := people, stored := people }

/-- `addPerson` (App.tsx lines 36-43): the new id is
`person_${Date.now()}`; `now` is the millisecond clock reading at the
call. -/
def addPerson (now : Nat) (s : RosterState) (name image : String) :
    RosterState :=
  updateKnownPeople (s.knownPeople ++
    [{ id := "person_" ++ toString now, name := name, image := image }])

/-- `removePerson` (App.tsx lines 45-47). -/
def removePerson (s : RosterState) (id : String) : RosterState :=
  updateKnownPeople (s.knownPeople.filter (fun p => p.id ≠ id))

/-! ## Camera-view control state (`src/unnamed/part_000`, lines 199-216)

The Record and Analyze buttons: Record is rendered with
`disabled={!stream || isAnalyzing}` and Analyze with
`disabled={!stream || isRecording}`; a disabled button fires no click
handler.  `handleStartRecording` additionally checks `if (stream)`. -/

structure CamControlState where
  isAnalyzing : Bool
  isRecording : Bool
  hasStream : Bool
deriving DecidableEq, Repr

inductive CamEvent where
  | clickAnalyze
  | clickRecord
  | setStream (b : Bool)
deriving DecidableEq, Repr

def camStep (s : CamControlState) : CamEvent → CamControlState
  | .clickAnalyze =>
    if s.hasStream ∧ ¬ s.isRecording then
      { s with isAnalyzing := ¬ s.isAnalyzing }
    else s
  | .clickRecord =>
    if s.hasStream ∧ ¬ s.isAnalyzing then
      if s.isRecording then { s with isRecording := false }
      else { s with isRecording := true }
    else s
  | .setStream b => { s with hasStream := b }

def camRun (s : CamControlState) : List CamEvent → CamControlState
  | [] => s
  | e :: es => camRun (camStep s e) es

/-- The camera view mounts with `isAnalyzing = false`,
`isRecording = false` (part_000 lines 27-28). -/
def camInit (hasStream : Bool) : CamControlState :=
  { isAnalyzing := false, isRecording := false, hasStream := hasStream }

/-! ## Batch analyzer file selection
(`src/components/BatchAnalyzer.tsx`, `handleFileChange`, lines 29-55) -/

/-- The fields of a selected `File` that the batch analyzer reads.
(`URL.createObjectURL` is an external collaborator producing an opaque
display URL and is not modelled.) -/
structure FileMeta where
  name : String
  lastModified : Nat
deriving DecidableEq, Repr

inductive BatchStatus where
  | pending
  | processing
  | done
  | error
deriving DecidableEq, Repr

/-- `ImageFileState` from BatchAnalyzer.tsx lines 13-20 (minus the
presentational `url` field). -/
structure ImageFileState where
  id : String
  file : FileMeta
  status : BatchStatus
  result : Option RecognitionResult
  naturalSize : Nat × Nat
deriving DecidableEq, Repr

/-- One freshly selected file (BatchAnalyzer.tsx lines 33-42):
`id = ${file.name}-${file.lastModified}`, status pending, null result,
zero natural size (the async `img.onload` later fills the size in). -/
def mkImageFileState (f : FileMeta) : ImageFileState :=
  { id := f.name ++ "-" ++ toString f.lastModified
    file := f
    status := .pending
    result := none
    naturalSize := (0, 0) }

structure BatchComponentState where
  imageFiles : List ImageFileState
  selectedImageId : Option String
  isBatchLoading : Bool
deriving DecidableEq, Repr

/-- `handleFileChange` (BatchAnalyzer.tsx lines 29-55): when at least one
file is chosen, `setImageFiles(newFiles)` replaces the whole list and
`setSelectedImageId(newFiles[0].id)` selects the first. -/
def handleFileChange (files : List FileMeta) (s : BatchComponentState) :
    BatchComponentState :=
  match files with
  | [] => s
  | f :: fs =>
    { s with
      imageFiles := (f :: fs).map mkImageFileState
      selectedImageId := some (mkImageFileState f).id }

/-! ## Live analysis loop (`src/unnamed/part_000`, lines 56-105)

Event-loop semantics of the camera view's analysis machinery.  The
browser event loop is single threaded: each synchronous segment of the
source runs atomically, and suspension happens only at the `await` on
`detectAndRecognizeFaces`.  The atomic segments are:

* `toggleClick` — `handleToggleAnalysis` together with the `isAnalyzing`
  effect (lines 81-105): toggling on arms the interval, toggling off
  clears the interval and immediately clears the displayed faces and
  person count;
* `tick v ctx` — one firing of the 1500 ms interval running
  `analyzeRealtimeFrame` up to its `await` (lines 56-65): skipped
  entirely when `isProcessingFrame.current` is set, when the video is
  absent, paused or ended, or when `captureFrame` yields a falsy result
  (`null` or the empty string);
* `resolveOk r` / `resolveErr msg` — delivery of the awaited
  recognition call (lines 66-78): a successful result is applied to the
  display only while `analysisIntervalRef.current` is non-null.

A `tick` event with the interval disarmed is the identity: with the
interval cleared no tick is delivered at all. -/

structure LiveState where
  isAnalyzing : Bool
  armed : Bool
  processing : Bool
  inFlight : Bool
  detectedFaces : List DetectedFace
  personCount : Nat
  errorMsg : Option String
  captures : Nat
  invocations : Nat
deriving DecidableEq, Repr

inductive LiveEvent where
  | toggleClick
  | tick (video : Option VideoElement) (ctxAvailable : Bool)
  | resolveOk (r : RecognitionResult)
  | resolveErr (msg : String)
deriving DecidableEq, Repr

def liveStep (s : LiveState) : LiveEvent → LiveState
  | .toggleClick =>
    if s.isAnalyzing then
      { s with isAnalyzing := false, armed := false,
               detectedFaces := [], personCount := 0 }
    else
      { s with isAnalyzing := true, armed := true }
  | .tick video ctx =>
    if s.armed = false then s
    else if s.processing then s
    else
      match video with
      | none => s
      | some v =>
        if v.paused ∨ v.ended then s
        else
          match captureFrame (some v) ctx with
          | none => { s with captures := s.captures + 1 }
          | some frame =>
            if frame = "" then { s with captures := s.captures + 1 }
            else
              { s with captures := s.captures + 1,
                       processing := true, inFlight := true,
                       invocations := s.invocations + 1 }
  | .resolveOk r =>
    if s.inFlight then
      if s.armed then
        { s with detectedFaces := r.faces, personCount := r.personCount,
                 processing := false, inFlight := false }
      else
        { s with processing := false, inFlight := false }
    else s
  | .resolveErr msg =>
    if s.inFlight then
      { s with errorMsg := some msg, processing := false, inFlight := false }
    else s

def liveRun (s : LiveState) : List LiveEvent → LiveState
  | [] => s
  | e :: es => liveRun (liveStep s e) es

/-- The camera view mounts idle: nothing armed, nothing in flight,
no faces displayed (part_000 lines 19-30). -/
def liveInit : LiveState :=
  { isAnalyzing := false, armed := false, processing := false,
    inFlight := false, detectedFaces := [], personCount := 0,
    errorMsg := none, captures := 0, invocations := 0 }

/-- A live, playing video element with intrinsic dimensions. -/
def readyVideo : VideoElement :=
  { videoWidth := 640, videoHeight := 480, paused := false, ended := false }

/-! ## Batch worker pool (`src/components/BatchAnalyzer.tsx`,
`handleAnalyzeBatch`, lines 57-85)

`handleAnalyzeBatch` filters the current items to those with status
pending or error, copies them into a shared `queue`, and starts
`CONCURRENCY_LIMIT = 3` workers.  Each worker loops: while the queue is
non-empty it `shift`s the head, marks it processing, `await`s the
collaborator, and marks it done (with the result) or error.  The event
loop is single threaded, so the synchronous segment
"check length, shift, mark processing, start call" is atomic, as is
"deliver result, mark done/error"; interleaving happens only at the
`await`.  We model the pool as a step function driven by a schedule of
worker indices; a worker index step performs that worker's next atomic
segment.  The collaborator is an oracle `outcome : id → Option result`
(`some r` = call succeeds with `r`, `none` = call rejects). -/

/-- `f.status === 'pending' || f.status === 'error'`
(BatchAnalyzer.tsx line 60). -/
def isRetryable (f : ImageFileState) : Bool :=
  f.status == .pending || f.status == .error

/-- `imageFiles.filter(f => f.status === 'pending' || f.status === 'error')`
(line 60). -/
def filesToProcess (files : List ImageFileState) : List ImageFileState :=
  files.filter isRetryable

/-- `CONCURRENCY_LIMIT` (BatchAnalyzer.tsx line 22). -/
def CONCURRENCY_LIMIT : Nat := 3

/-- `setImageFiles(prev => prev.map(f => f.id === id ? {...f, status:
'processing'} : f))` (line 64). -/
def markProcessing (id : String) (files : List ImageFileState) :
    List ImageFileState :=
  files.map (fun f => if f.id = id then { f with status := .processing } else f)

/-- The per-item completion update (lines 66-71): on success
`{...f, status: 'done', result}`, on failure `{...f, status: 'error'}`
(the previous `result` field is left in place). -/
def markResolved (outcome : String → Option RecognitionResult) (id : String)
    (files : List ImageFileState) : List ImageFileState :=
  files.map (fun f =>
    if f.id = id then
      match outcome id with
      | some r => { f with status := .done, result := some r }
      | none => { f with status := .error }
    else f)

/-- What one item looks like after its collaborator call completes. -/
def applyOutcome (outcome : String → Option RecognitionResult)
    (f : ImageFileState) : ImageFileState :=
  match outcome f.id with
  | some r => { f with status := .done, result := some r }
  | none => { f with status := .error }

/-- A worker is between queue polls (`idle`), awaiting the collaborator
on a claimed item (`busy`), or has observed the empty queue and returned
(`finished`). -/
inductive WorkerPhase where
  | idle
  | busy (item : ImageFileState)
  | finished
deriving DecidableEq, Repr

/-- The run state of one invocation of `handleAnalyzeBatch`: the shared
FIFO `queue`, the worker phases, the component's `imageFiles` state, and
the log of ids submitted to the collaborator, in submission order. -/
structure PoolState where
  queue : List ImageFileState
  workers : List WorkerPhase
  files : List ImageFileState
  calls : List String
deriving DecidableEq, Repr

/-- One atomic segment of worker `i`:
* idle with a non-empty queue — `queue.shift()`, mark the head
  processing, submit it to the collaborator (lines 75-78 up to the
  `await` inside `process`);
* idle with an empty queue — the `while` test fails, the worker joins
  (line 75);
* busy — the awaited call settles and the item is marked done or error
  (lines 66-71). -/
def poolStep (outcome : String → Option RecognitionResult) (s : PoolState)
    (i : Nat) : PoolState :=
  match s.workers[i]? with
  | none => s
  | some .finished => s
  | some .idle =>
    match s.queue with
    | [] => { s with workers := s.workers.set i .finished }
    | x :: rest =>
      { queue := rest
        workers := s.workers.set i (.busy x)
        files := markProcessing x.id s.files
        calls := s.calls ++ [x.id] }
  | some (.busy x) =>
    { s with
      workers := s.workers.set i .idle
      files := markResolved outcome x.id s.files }

def poolRun (outcome : String → Option RecognitionResult) (s : PoolState) :
    List Nat → PoolState
  | [] => s
  | i :: sched => poolRun outcome (poolStep outcome s i) sched

/-- The state at the start of `handleAnalyzeBatch`: the retryable items
copied into the queue, `CONCURRENCY_LIMIT` workers about to poll it. -/
def poolInit (files : List ImageFileState) : PoolState :=
  { queue := filesToProcess files
    workers := List.replicate CONCURRENCY_LIMIT .idle
    files := files
    calls := [] }

/-- `await Promise.all(workers)` has returned: every worker joined. -/
def allFinished (s : PoolState) : Prop :=
  ∀ w ∈ s.workers, w = WorkerPhase.finished

instance (s : PoolState) : Decidable (allFinished s) :=
  List.decidableBAll _ s.workers

/-- The ids of the items currently claimed by busy workers. -/
def busyIds (ws : List WorkerPhase) : List String :=
  ws.filterMap (fun w =>
    match w with
    | .busy x => some x.id
    | _ => none)

/-- How the component state of one item reads at an intermediate point
of the run, given the submission log and the busy claims. -/
def overlayStatus (outcome : String → Option RecognitionResult)
    (calls busy : List String) (f : ImageFileState) : ImageFileState :=
  if f.id ∈ busy then { f with status := .processing }
  else if f.id ∈ calls then applyOutcome outcome f
  else f

end FaceRec

namespace FaceRec

/-! ## Theorems: geometry -/

/-- C5: for every container client size and positive intrinsic size, the
geometry mapper computes `scale = min(clientWidth/naturalWidth,
clientHeight/naturalHeight)`, and the scaled size fits inside the client
size with equality in at least one dimension. -/
theorem C5_scale_letterbox_fit (cw ch nw nh : ℚ) (hnw : 0 < nw) (hnh : 0 < nh) :
    calculateScale cw ch nw nh 1 = min (cw / nw) (ch / nh) ∧
    scaledWidth nw (calculateScale cw ch nw nh 1) ≤ cw ∧
    scaledHeight nh (calculateScale cw ch nw nh 1) ≤ ch ∧
    (scaledWidth nw (calculateScale cw ch nw nh 1) = cw ∨
      scaledHeight nh (calculateScale cw ch nw nh 1) = ch) := by
  have hs : calculateScale cw ch nw nh 1 = min (cw / nw) (ch / nh) := by
    simp [calculateScale, hnw, hnh]
  have hwx : nw * (cw / nw) = cw := by field_simp
  have hhy : nh * (ch / nh) = ch := by field_simp
  refine ⟨hs, ?_, ?_, ?_⟩
  · calc nw * calculateScale cw ch nw nh 1
        ≤ nw * (cw / nw) := by
          apply mul_le_mul_of_nonneg_left _ (le_of_lt hnw)
          rw [hs]; exact min_le_left _ _
      _ = cw := hwx
  · calc nh * calculateScale cw ch nw nh 1
        ≤ nh * (ch / nh) := by
          apply mul_le_mul_of_nonneg_left _ (le_of_lt hnh)
          rw [hs]; exact min_le_right _ _
      _ = ch := hhy
  · rcases min_choice (cw / nw) (ch / nh) with h | h
    · left; rw [scaledWidth, hs, h, hwx]
    · right; rw [scaledHeight, hs, h, hhy]

/-- Witness for C5 at the spec's example: client 800×600, natural
1600×900 gives scale 1/2 and scaled size 800×450, with the fit bounds
delivered by the theorem. -/
theorem C5_scale_letterbox_fit_witness :
    calculateScale 800 600 1600 900 1 = 1/2 ∧
    scaledWidth 1600 (calculateScale 800 600 1600 900 1) = 800 ∧
    scaledHeight 900 (calculateScale 800 600 1600 900 1) = 450 ∧
    scaledWidth 1600 (calculateScale 800 600 1600 900 1) ≤ 800 ∧
    scaledHeight 900 (calculateScale 800 600 1600 900 1) ≤ 600 := by
  have h := C5_scale_letterbox_fit 800 600 1600 900 (by norm_num) (by norm_num)
  refine ⟨?_, ?_, ?_, h.2.1, h.2.2.1⟩
  · rw [h.1]; norm_num
  · rw [scaledWidth, h.1]; norm_num
  · rw [scaledHeight, h.1]; norm_num

/-- C6: for a face box whose components all lie in `[0,1]`, the rendered
overlay rectangle is exactly `(x*scaledWidth, y*scaledHeight,
width*scaledWidth, height*scaledHeight)` and each of its components lies
within `[0, scaledWidth]` respectively `[0, scaledHeight]`. -/
theorem C6_overlay_rect_in_bounds (b : BoundingBox) (sw sh : ℚ)
    (hsw : 0 ≤ sw) (hsh : 0 ≤ sh)
    (hx0 : 0 ≤ b.x) (hx1 : b.x ≤ 1) (hy0 : 0 ≤ b.y) (hy1 : b.y ≤ 1)
    (hw0 : 0 ≤ b.width) (hw1 : b.width ≤ 1)
    (hh0 : 0 ≤ b.height) (hh1 : b.height ≤ 1) :
    mapFaceBox b sw sh =
      ⟨b.x * sw, b.y * sh, b.width * sw, b.height * sh⟩ ∧
    (0 ≤ (mapFaceBox b sw sh).left ∧ (mapFaceBox b sw sh).left ≤ sw) ∧
    (0 ≤ (mapFaceBox b sw sh).top ∧ (mapFaceBox b sw sh).top ≤ sh) ∧
    (0 ≤ (mapFaceBox b sw sh).width ∧ (mapFaceBox b sw sh).width ≤ sw) ∧
    (0 ≤ (mapFaceBox b sw sh).height ∧ (mapFaceBox b sw sh).height ≤ sh) := by
  refine ⟨rfl, ⟨?_, ?_⟩, ⟨?_, ?_⟩, ⟨?_, ?_⟩, ⟨?_, ?_⟩⟩
  · exact mul_nonneg hx0 hsw
  · simpa using mul_le_of_le_one_left hsw hx1
  · exact mul_nonneg hy0 hsh
  · simpa using mul_le_of_le_one_left hsh hy1
  · exact mul_nonneg hw0 hsw
  · simpa using mul_le_of_le_one_left hsw hw1
  · exact mul_nonneg hh0 hsh
  · simpa using mul_le_of_le_one_left hsh hh1

/-- Witness for C6 at the spec's example: box (0.25, 0.1, 0.3, 0.4) at
scaled size 800×450 maps to (200, 45, 240, 180), within bounds. -/
theorem C6_overlay_rect_in_bounds_witness :
    mapFaceBox ⟨1/4, 1/10, 3/10, 2/5⟩ 800 450 = ⟨200, 45, 240, 180⟩ ∧
    (0 ≤ (mapFaceBox ⟨1/4, 1/10, 3/10, 2/5⟩ 800 450).left ∧
      (mapFaceBox ⟨1/4, 1/10, 3/10, 2/5⟩ 800 450).left ≤ 800) := by
  have h := C6_overlay_rect_in_bounds ⟨1/4, 1/10, 3/10, 2/5⟩ 800 450
    (by norm_num) (by norm_num) (by norm_num) (by norm_num) (by norm_num)
    (by norm_num) (by norm_num) (by norm_num) (by norm_num) (by norm_num)
  refine ⟨?_, h.2.1⟩
  simp only [mapFaceBox]
  norm_num

/-! ## Theorems: frame capture -/

/-- C7 counterexample: with a video element attached (zero intrinsic
dimensions, i.e. "no intrinsic dimensions yet") and the 2D context
available, `captureFrame` does not return the null failure signal — it
returns the degenerate data URL `"data:,"`, a non-null, non-empty string,
so the live-loop caller's falsiness check `if (!frameDataUrl)` does not
treat it as a failure. -/
theorem C7_zero_dims_counterexample :
    captureFrame
      (some { videoWidth := 0, videoHeight := 0, paused := false,
              ended := false }) true = some "data:," ∧
    captureFrame
      (some { videoWidth := 0, videoHeight := 0, paused := false,
              ended := false }) true ≠ none ∧
    "data:," ≠ "" := by
  refine ⟨rfl, ?_, ?_⟩ <;> decide

/-- C7 amended: `captureFrame` never throws (it is a total function) and
returns the null failure signal exactly when the video element is not
attached or the 2D context is unavailable; when the element is attached
and a context exists it returns a data URL even if the intrinsic
dimensions are still zero. -/
theorem C7_capture_null_iff (video : Option VideoElement) (ctx : Bool) :
    (captureFrame video ctx = none ↔ video = none ∨ ctx = false) ∧
    (∀ v, video = some v → ctx = true →
      captureFrame video ctx = some (toDataURL v.videoWidth v.videoHeight)) := by
  constructor
  · cases video <;> cases ctx <;> simp [captureFrame]
  · rintro v rfl rfl
    simp [captureFrame]

/-- Witness for C7 amended: a ready 640×480 video with a context
captures successfully; a detached video returns none. -/
theorem C7_capture_null_iff_witness :
    captureFrame
      (some { videoWidth := 640, videoHeight := 480, paused := false,
              ended := false }) true = some "data:image/jpeg;base64" ∧
    captureFrame none true = none := by
  have h := C7_capture_null_iff
    (some { videoWidth := 640, videoHeight := 480, paused := false,
            ended := false }) true
  refine ⟨?_, (C7_capture_null_iff none true).1.mpr (Or.inl rfl)⟩
  have := h.2 _ rfl rfl
  simpa [toDataURL] using this

/-! ## Theorems: roster manager -/

/-- C8 counterexample: ids are `person_${Date.now()}`, so two adds with
the same millisecond clock reading produce duplicate ids — at the
concrete roster state reached by `add("Alice")` at time 5, a second
`add("Bob")` at time 5 appends an id that is NOT distinct from the id
already in the roster. -/
theorem C8_id_collision_counterexample :
    ((addPerson 5 (addPerson 5 (updateKnownPeople []) "Alice" "imgA")
        "Bob" "imgB").knownPeople.map (fun p => p.id))
      = ["person_5", "person_5"] ∧
    ¬ ((addPerson 5 (addPerson 5 (updateKnownPeople []) "Alice" "imgA")
        "Bob" "imgB").knownPeople.map (fun p => p.id)).Nodup := by
  constructor <;> decide

/-- C8 amended: provided the clock-derived id `person_<now>` differs
from every id already in the roster (adds at distinct milliseconds),
`add` appends exactly one new person with that fresh unique id and
persists the full updated roster; `remove id` yields exactly the entries
whose id differs from `id`, persisted; and removing the freshly added id
restores the previous roster. -/
theorem C8_add_remove_roster (s : RosterState) (now : Nat) (name image : String)
    (hfresh : ("person_" ++ toString now) ∉ s.knownPeople.map (fun p => p.id)) :
    (addPerson now s name image).knownPeople
      = s.knownPeople ++ [⟨"person_" ++ toString now, name, image⟩] ∧
    (addPerson now s name image).stored
      = (addPerson now s name image).knownPeople ∧
    (∀ p ∈ s.knownPeople, p.id ≠ "person_" ++ toString now) ∧
    (∀ id, (removePerson s id).knownPeople
        = s.knownPeople.filter (fun p => p.id ≠ id) ∧
      (removePerson s id).stored = (removePerson s id).knownPeople) ∧
    (removePerson (addPerson now s name image)
        ("person_" ++ toString now)).knownPeople = s.knownPeople := by
  have hne : ∀ p ∈ s.knownPeople, p.id ≠ "person_" ++ toString now := by
    intro p hp heq
    exact hfresh (List.mem_map.mpr ⟨p, hp, heq⟩)
  refine ⟨rfl, rfl, hne, fun id => ⟨rfl, rfl⟩, ?_⟩
  show ((s.knownPeople ++ [_]).filter _) = s.knownPeople
  rw [List.filter_append]
  have h1 : s.knownPeople.filter
      (fun p => p.id ≠ "person_" ++ toString now) = s.knownPeople := by
    apply List.filter_eq_self.mpr
    intro p hp
    simpa using hne p hp
  have h2 : ([(⟨"person_" ++ toString now, name, image⟩ : KnownPerson)].filter
      (fun p => p.id ≠ "person_" ++ toString now)) = [] := by
    simp
  rw [h1, h2, List.append_nil]

/-- Witness for C8 amended: `add("Alice", img)` on the empty roster at
time 1 yields exactly one entry named Alice with id `person_1`, and
removing that id leaves the roster empty. -/
theorem C8_add_remove_roster_witness :
    (addPerson 1 (updateKnownPeople []) "Alice" "img").knownPeople
      = [⟨"person_1", "Alice", "img"⟩] ∧
    (removePerson (addPerson 1 (updateKnownPeople []) "Alice" "img")
        "person_1").knownPeople = [] := by
  have h := C8_add_remove_roster (updateKnownPeople []) 1 "Alice" "img"
    (by decide)
  refine ⟨?_, ?_⟩
  · rw [h.1]; rfl
  · have h5 := h.2.2.2.2
    simpa using h5

/-! ## Theorems: camera-view mutual exclusion -/

theorem camStep_preserves_exclusion (s : CamControlState)
    (h : ¬ (s.isAnalyzing = true ∧ s.isRecording = true)) (e : CamEvent) :
    ¬ ((camStep s e).isAnalyzing = true ∧ (camStep s e).isRecording = true) := by
  rcases s with ⟨a, r, st⟩
  revert h
  cases e <;> cases a <;> cases r <;> cases st <;> simp [camStep]

/-- C9: in every state of the camera view reachable from mount by button
clicks and stream changes, recording and live analysis are never active
simultaneously; moreover a Record click is a no-op while analysis is on,
and an Analyze click is a no-op while recording is on (the buttons are
disabled). -/
theorem C9_recording_analysis_exclusive (b : Bool) (events : List CamEvent) :
    ¬ ((camRun (camInit b) events).isAnalyzing = true ∧
       (camRun (camInit b) events).isRecording = true) ∧
    (∀ s : CamControlState, s.isAnalyzing = true → camStep s .clickRecord = s) ∧
    (∀ s : CamControlState, s.isRecording = true → camStep s .clickAnalyze = s) := by
  refine ⟨?_, ?_, ?_⟩
  · have key : ∀ (es : List CamEvent) (s : CamControlState),
        ¬ (s.isAnalyzing = true ∧ s.isRecording = true) →
        ¬ ((camRun s es).isAnalyzing = true ∧ (camRun s es).isRecording = true) := by
      intro es
      induction es with
      | nil => intro s h; exact h
      | cons e es ih =>
        intro s h
        exact ih (camStep s e) (camStep_preserves_exclusion s h e)
    apply key
    simp [camInit]
  · intro s ha
    simp [camStep, ha]
  · intro s hr
    simp [camStep, hr]

/-- Witness for C9 at a concrete trace (acquire stream, toggle analysis
on, click record — the record click is a no-op while analyzing). -/
theorem C9_recording_analysis_exclusive_witness :
    ¬ ((camRun (camInit true) [.clickAnalyze, .clickRecord]).isAnalyzing = true ∧
       (camRun (camInit true) [.clickAnalyze, .clickRecord]).isRecording = true) ∧
    camStep ⟨true, false, true⟩ .clickRecord = ⟨true, false, true⟩ := by
  have h := C9_recording_analysis_exclusive true [.clickAnalyze, .clickRecord]
  exact ⟨h.1, h.2.1 ⟨true, false, true⟩ rfl⟩

/-! ## Theorems: batch file selection -/

/-- C10: choosing a non-empty set of files replaces the entire batch
list with exactly the newly chosen files — each initialized to status
Pending with a null result and zero natural size — and selects the first
new file; the resulting list does not depend on the previous items
(Done items and their results included), which are discarded. -/
theorem C10_file_change_replaces (files : List FileMeta)
    (s : BatchComponentState) (h : files ≠ []) :
    (handleFileChange files s).imageFiles = files.map mkImageFileState ∧
    (∀ it ∈ (handleFileChange files s).imageFiles,
      it.status = .pending ∧ it.result = none ∧ it.naturalSize = (0, 0)) ∧
    (∃ f rest, files = f :: rest ∧
      (handleFileChange files s).selectedImageId = some (mkImageFileState f).id) ∧
    (∀ s2 : BatchComponentState,
      (handleFileChange files s2).imageFiles = (handleFileChange files s).imageFiles) := by
  match files, h with
  | f :: fs, _ =>
    refine ⟨rfl, ?_, ⟨f, fs, rfl, rfl⟩, fun s2 => rfl⟩
    intro it hit
    rcases List.mem_map.mp hit with ⟨g, _, rfl⟩
    exact ⟨rfl, rfl, rfl⟩

/-- A batch state holding one already-Done item with a result, used to
exercise the replacement behaviour of `handleFileChange`. -/
def staleBatchState : BatchComponentState :=
  { imageFiles := [⟨"old", ⟨"old.jpg", 1⟩, .done, some ⟨[], 3⟩, (9, 9)⟩]
    selectedImageId := some "old"
    isBatchLoading := false }

/-- Witness for C10: selecting two files over a state that already holds
a Done item with a result replaces the list with the two fresh Pending
items and selects the first. -/
theorem C10_file_change_replaces_witness :
    (handleFileChange [⟨"a.jpg", 10⟩, ⟨"b.jpg", 20⟩] staleBatchState).imageFiles
      = [mkImageFileState ⟨"a.jpg", 10⟩, mkImageFileState ⟨"b.jpg", 20⟩] ∧
    (handleFileChange [⟨"a.jpg", 10⟩, ⟨"b.jpg", 20⟩]
        staleBatchState).selectedImageId = some "a.jpg-10" := by
  have h := C10_file_change_replaces [⟨"a.jpg", 10⟩, ⟨"b.jpg", 20⟩]
    staleBatchState (by simp)
  refine ⟨h.1, ?_⟩
  rcases h.2.2.1 with ⟨f, rest, hf, hsel⟩
  cases hf
  simpa [mkImageFileState] using hsel

/-! ## Worker-pool invariant (helper lemmas for C3 and C4) -/

theorem applyOutcome_id (o : String → Option RecognitionResult)
    (f : ImageFileState) : (applyOutcome o f).id = f.id := by
  unfold applyOutcome
  cases o f.id <;> rfl

theorem overlayStatus_id (o : String → Option RecognitionResult)
    (c b : List String) (f : ImageFileState) :
    (overlayStatus o c b f).id = f.id := by
  unfold overlayStatus
  split
  · rfl
  · split
    · exact applyOutcome_id o f
    · rfl

theorem overlayStatus_congr (o : String → Option RecognitionResult)
    {c1 c2 b1 b2 : List String} {f : ImageFileState}
    (hb : f.id ∈ b1 ↔ f.id ∈ b2) (hc : f.id ∈ c1 ↔ f.id ∈ c2) :
    overlayStatus o c1 b1 f = overlayStatus o c2 b2 f := by
  unfold overlayStatus
  exact if_congr hb rfl (if_congr hc rfl rfl)

theorem list_decomp {α : Type} (ws : List α) (i : Nat) (h : i < ws.length) :
    ws = ws.take i ++ ws[i] :: ws.drop (i + 1) := by
  conv_lhs => rw [← List.take_append_drop i ws]
  rw [List.drop_eq_getElem_cons h]

theorem busyIds_append (l1 l2 : List WorkerPhase) :
    busyIds (l1 ++ l2) = busyIds l1 ++ busyIds l2 := by
  simp [busyIds, List.filterMap_append]

/-- Replacing an idle worker by a finished one leaves the busy ids
unchanged. -/
theorem busyIds_set_finished (ws : List WorkerPhase) (i : Nat)
    (hw : ws[i]? = some .idle) :
    busyIds (ws.set i .finished) = busyIds ws := by
  obtain ⟨h, hget⟩ := List.getElem?_eq_some.mp hw
  rw [List.set_eq_take_cons_drop _ h]
  conv_rhs => rw [list_decomp ws i h]
  rw [hget]
  simp [busyIds, List.filterMap_append, List.filterMap_cons]

/-- Replacing an idle worker by a busy one inserts that item's id into
the busy ids. -/
theorem busyIds_set_busy (ws : List WorkerPhase) (i : Nat)
    (x : ImageFileState) (hw : ws[i]? = some .idle) :
    busyIds (ws.set i (.busy x))
      = busyIds (ws.take i) ++ x.id :: busyIds (ws.drop (i + 1)) ∧
    busyIds ws = busyIds (ws.take i) ++ busyIds (ws.drop (i + 1)) := by
  obtain ⟨h, hget⟩ := List.getElem?_eq_some.mp hw
  constructor
  · rw [List.set_eq_take_cons_drop _ h]
    simp [busyIds, List.filterMap_append, List.filterMap_cons]
  · conv_lhs => rw [list_decomp ws i h]
    rw [hget]
    simp [busyIds, List.filterMap_append, List.filterMap_cons]

/-- Replacing a busy worker by an idle one removes that item's id from
the busy ids. -/
theorem busyIds_set_idle (ws : List WorkerPhase) (i : Nat)
    (x : ImageFileState) (hw : ws[i]? = some (.busy x)) :
    busyIds (ws.set i .idle)
      = busyIds (ws.take i) ++ busyIds (ws.drop (i + 1)) ∧
    busyIds ws = busyIds (ws.take i) ++ x.id :: busyIds (ws.drop (i + 1)) := by
  obtain ⟨h, hget⟩ := List.getElem?_eq_some.mp hw
  constructor
  · rw [List.set_eq_take_cons_drop _ h]
    simp [busyIds, List.filterMap_append, List.filterMap_cons]
  · conv_lhs => rw [list_decomp ws i h]
    rw [hget]
    simp [busyIds, List.filterMap_append, List.filterMap_cons]

theorem mem_of_mem_set {α : Type} {ws : List α} {i : Nat} {ph w : α}
    (h : w ∈ ws.set i ph) : w ∈ ws ∨ w = ph := by
  by_cases hi : i < ws.length
  · rw [List.set_eq_take_cons_drop _ hi] at h
    rcases List.mem_append.mp h with h1 | h2
    · exact Or.inl (List.mem_of_mem_take h1)
    · rcases List.mem_cons.mp h2 with h3 | h4
      · exact Or.inr h3
      · exact Or.inl (List.mem_of_mem_drop h4)
  · rw [List.set_eq_of_length_le (le_of_not_lt hi)] at h
    exact Or.inl h

/-- The ids of the retryable items are duplicate free whenever the ids
of the full item list are. -/
theorem filesToProcess_ids_nodup (files0 : List ImageFileState)
    (hnd : (files0.map (fun f => f.id)).Nodup) :
    ((filesToProcess files0).map (fun f => f.id)).Nodup := by
  have hsub : List.Sublist ((filesToProcess files0).map (fun f => f.id))
      (files0.map (fun f => f.id)) :=
    (List.filter_sublist files0).map (fun f => f.id)
  exact hnd.sublist hsub

/-- The run invariant of the worker pool, relative to the item list
`files0` the run was invoked on:

* `calls_queue` — the submission log is a prefix of the retryable-item
  ids in order, and the queue is the matching suffix of the retryable
  items;
* `busy_sub` — every id claimed by a busy worker has been submitted;
* `busy_nodup` — no two busy workers hold the same id;
* `files_char` — the component state is the initial list overlaid
  pointwise: claimed-and-unresolved items read processing, submitted and
  resolved items read done/error per the collaborator, untouched items
  read their initial state;
* `fin_queue` — a worker only ever finishes on an empty queue, and the
  queue never grows. -/
structure PoolInv (o : String → Option RecognitionResult)
    (files0 : List ImageFileState) (s : PoolState) : Prop where
  calls_queue : ∃ n,
    s.calls = ((filesToProcess files0).map (fun f => f.id)).take n ∧
    s.queue = (filesToProcess files0).drop n
  busy_sub : ∀ id ∈ busyIds s.workers, id ∈ s.calls
  busy_nodup : (busyIds s.workers).Nodup
  files_char :
    s.files = files0.map (overlayStatus o s.calls (busyIds s.workers))
  fin_queue : WorkerPhase.finished ∈ s.workers → s.queue = []

theorem poolInit_inv (o : String → Option RecognitionResult)
    (files0 : List ImageFileState) :
    PoolInv o files0 (poolInit files0) := by
  refine ⟨⟨0, by simp [poolInit], by simp [poolInit]⟩, ?_, ?_, ?_, ?_⟩
  · intro id hid
    simp [poolInit, CONCURRENCY_LIMIT, busyIds, List.filterMap_replicate] at hid
  · simp [poolInit, CONCURRENCY_LIMIT, busyIds, List.filterMap_replicate]
  · show files0 = _
    rw [List.map_congr_left (g := id), List.map_id]
    intro f _
    simp [poolInit, CONCURRENCY_LIMIT, busyIds, List.filterMap_replicate,
      overlayStatus]
  · intro hmem
    simp [poolInit, CONCURRENCY_LIMIT, List.mem_replicate] at hmem

theorem nodup_getElem_not_mem_take {α : Type} (l : List α) (hl : l.Nodup)
    (n : Nat) (h : n < l.length) : l[n] ∉ l.take n := by
  intro hmem
  have hd : l[n] ∈ l.drop n := by
    rw [List.drop_eq_getElem_cons h]
    exact List.mem_cons_self _ _
  have hnd2 : (l.take n ++ l.drop n).Nodup := by rwa [List.take_append_drop]
  exact List.disjoint_of_nodup_append hnd2 hmem hd

/-- Preservation: one scheduler step keeps the pool invariant, provided
the initial item ids are duplicate free. -/
theorem poolStep_inv (o : String → Option RecognitionResult)
    (files0 : List ImageFileState)
    (hnd : (files0.map (fun f => f.id)).Nodup)
    (s : PoolState) (i : Nat) (hs : PoolInv o files0 s) :
    PoolInv o files0 (poolStep o s i) := by
  cases hw : s.workers[i]? with
  | none =>
    have hstep : poolStep o s i = s := by unfold poolStep; rw [hw]
    rwa [hstep]
  | some w =>
    cases w with
    | finished =>
      have hstep : poolStep o s i = s := by unfold poolStep; rw [hw]
      rwa [hstep]
    | idle =>
      cases hq : s.queue with
      | nil =>
        have hstep : poolStep o s i
            = { s with workers := s.workers.set i .finished } := by
          unfold poolStep; rw [hw, hq]
        rw [hstep]
        have hbusy := busyIds_set_finished s.workers i hw
        refine ⟨hs.calls_queue, ?_, ?_, ?_, fun _ => hq⟩
        · intro id hid
          have hid2 : id ∈ busyIds (s.workers.set i .finished) := hid
          rw [hbusy] at hid2
          exact hs.busy_sub id hid2
        · show (busyIds (s.workers.set i .finished)).Nodup
          rw [hbusy]; exact hs.busy_nodup
        · show s.files = files0.map
            (overlayStatus o s.calls (busyIds (s.workers.set i .finished)))
          rw [hbusy]; exact hs.files_char
      | cons x rest =>
        have hstep : poolStep o s i
            = { queue := rest
                workers := s.workers.set i (.busy x)
                files := markProcessing x.id s.files
                calls := s.calls ++ [x.id] } := by
          unfold poolStep; rw [hw, hq]
        obtain ⟨n, hc, hqd⟩ := hs.calls_queue
        have hpnd := filesToProcess_ids_nodup files0 hnd
        have hlen : n < (filesToProcess files0).length := by
          by_contra hle
          rw [List.drop_eq_nil_of_le (le_of_not_lt hle)] at hqd
          rw [hq] at hqd
          exact List.noConfusion hqd
        have hlenm : n < ((filesToProcess files0).map (fun f => f.id)).length := by
          simpa using hlen
        have hxeq : (filesToProcess files0)[n] = x ∧
            (filesToProcess files0).drop (n + 1) = rest := by
          rw [hq, List.drop_eq_getElem_cons hlen] at hqd
          exact ⟨(List.cons.injEq _ _ _ _ ▸ hqd.symm).1,
                 (List.cons.injEq _ _ _ _ ▸ hqd.symm).2⟩
        have hxid : ((filesToProcess files0).map (fun f => f.id))[n]
            = x.id := by
          rw [List.getElem_map, hxeq.1]
        have hxcalls : x.id ∉ s.calls := by
          rw [hc]
          intro hmem
          exact nodup_getElem_not_mem_take _ hpnd n hlenm (hxid ▸ hmem)
        have hxbusy : x.id ∉ busyIds s.workers :=
          fun hmem => hxcalls (hs.busy_sub _ hmem)
        obtain ⟨hbnew, hbold⟩ := busyIds_set_busy s.workers i x hw
        rw [hstep]
        refine ⟨⟨n + 1, ?_, ?_⟩, ?_, ?_, ?_, ?_⟩
        · show s.calls ++ [x.id]
            = ((filesToProcess files0).map (fun f => f.id)).take (n + 1)
          rw [hc, List.take_succ, List.getElem?_eq_getElem hlenm, hxid]
          rfl
        · exact hxeq.2.symm
        · intro id hid
          have hid2 : id ∈ busyIds (s.workers.set i (.busy x)) := hid
          rw [hbnew] at hid2
          rcases List.mem_append.mp hid2 with h1 | h2
          · exact List.mem_append_left _
              (hs.busy_sub id (hbold ▸ List.mem_append_left _ h1))
          · rcases List.mem_cons.mp h2 with h3 | h4
            · exact List.mem_append_right _ (h3 ▸ List.mem_singleton_self _)
            · exact List.mem_append_left _
                (hs.busy_sub id (hbold ▸ List.mem_append_right _ h4))
        · show (busyIds (s.workers.set i (.busy x))).Nodup
          rw [hbnew, List.nodup_middle, List.nodup_cons]
          exact ⟨hbold ▸ hxbusy, hbold ▸ hs.busy_nodup⟩
        · show markProcessing x.id s.files = files0.map
            (overlayStatus o (s.calls ++ [x.id])
              (busyIds (s.workers.set i (.busy x))))
          rw [hs.files_char]
          unfold markProcessing
          rw [List.map_map]
          apply List.map_congr_left
          intro f _
          show (if (overlayStatus o s.calls (busyIds s.workers) f).id = x.id
              then _ else _) = _
          rw [overlayStatus_id]
          by_cases hfx : f.id = x.id
          · rw [if_pos hfx]
            have hov : overlayStatus o s.calls (busyIds s.workers) f = f := by
              unfold overlayStatus
              rw [if_neg (hfx ▸ hxbusy), if_neg (hfx ▸ hxcalls)]
            rw [hov]
            have hmem2 : f.id ∈ busyIds (s.workers.set i (.busy x)) := by
              rw [hbnew, hfx]
              exact List.mem_append_right _ (List.mem_cons_self _ _)
            unfold overlayStatus
            rw [if_pos hmem2]
          · rw [if_neg hfx]
            apply overlayStatus_congr
            · rw [hbnew, hbold]
              simp [List.mem_append, List.mem_cons, hfx]
            · simp [List.mem_append, hfx]
        · intro hfin
          have hfin2 : WorkerPhase.finished ∈ s.workers.set i (.busy x) := hfin
          rcases mem_of_mem_set hfin2 with hmem | heq
          · rw [hs.fin_queue hmem] at hq
            exact List.noConfusion hq
          · exact WorkerPhase.noConfusion heq
    | busy x =>
      have hstep : poolStep o s i
          = { s with workers := s.workers.set i .idle
                     files := markResolved o x.id s.files } := by
        unfold poolStep; rw [hw]
      obtain ⟨hbnew, hbold⟩ := busyIds_set_idle s.workers i x hw
      have hxin : x.id ∈ busyIds s.workers := by
        rw [hbold]
        exact List.mem_append_right _ (List.mem_cons_self _ _)
      have hxcalls : x.id ∈ s.calls := hs.busy_sub _ hxin
      have hmid := List.nodup_middle.mp (hbold ▸ hs.busy_nodup)
      have hxnot : x.id ∉ busyIds (s.workers.take i)
          ++ busyIds (s.workers.drop (i + 1)) := (List.nodup_cons.mp hmid).1
      have hnd2 : (busyIds (s.workers.take i)
          ++ busyIds (s.workers.drop (i + 1))).Nodup := (List.nodup_cons.mp hmid).2
      rw [hstep]
      refine ⟨hs.calls_queue, ?_, ?_, ?_, ?_⟩
      · intro id hid
        have hid2 : id ∈ busyIds (s.workers.set i .idle) := hid
        rw [hbnew] at hid2
        rcases List.mem_append.mp hid2 with h1 | h2
        · exact hs.busy_sub id (hbold ▸ List.mem_append_left _ h1)
        · exact hs.busy_sub id
            (hbold ▸ List.mem_append_right _ (List.mem_cons_of_mem _ h2))
      · show (busyIds (s.workers.set i .idle)).Nodup
        rw [hbnew]; exact hnd2
      · show markResolved o x.id s.files = files0.map
          (overlayStatus o s.calls (busyIds (s.workers.set i .idle)))
        rw [hs.files_char]
        unfold markResolved
        rw [List.map_map]
        apply List.map_congr_left
        intro f _
        show (if (overlayStatus o s.calls (busyIds s.workers) f).id = x.id
            then _ else _) = _
        rw [overlayStatus_id]
        by_cases hfx : f.id = x.id
        · rw [if_pos hfx]
          have hov : overlayStatus o s.calls (busyIds s.workers) f
              = { f with status := .processing } := by
            unfold overlayStatus
            rw [if_pos (hfx ▸ hxin)]
          have hov2 : overlayStatus o s.calls
              (busyIds (s.workers.set i .idle)) f = applyOutcome o f := by
            unfold overlayStatus
            rw [if_neg (by rw [hbnew]; exact hfx ▸ hxnot),
              if_pos (hfx ▸ hxcalls)]
          rw [hov, hov2]
          unfold applyOutcome
          rw [hfx]
        · rw [if_neg hfx]
          apply overlayStatus_congr
          · rw [hbnew, hbold]
            simp [List.mem_append, List.mem_cons, hfx]
          · exact Iff.rfl
      · intro hfin
        have hfin2 : WorkerPhase.finished ∈ s.workers.set i .idle := hfin
        rcases mem_of_mem_set hfin2 with hmem | heq
        · exact hs.fin_queue hmem
        · exact WorkerPhase.noConfusion heq

theorem poolRun_inv (o : String → Option RecognitionResult)
    (files0 : List ImageFileState)
    (hnd : (files0.map (fun f => f.id)).Nodup)
    (sched : List Nat) (s : PoolState) (hs : PoolInv o files0 s) :
    PoolInv o files0 (poolRun o s sched) := by
  induction sched generalizing s with
  | nil => exact hs
  | cons i sch ih => exact ih (poolStep o s i) (poolStep_inv o files0 hnd s i hs)

theorem poolStep_workers_length (o : String → Option RecognitionResult)
    (s : PoolState) (i : Nat) :
    (poolStep o s i).workers.length = s.workers.length := by
  cases hw : s.workers[i]? with
  | none => simp [poolStep, hw]
  | some w =>
    cases w with
    | finished => simp [poolStep, hw]
    | idle =>
      cases hq : s.queue with
      | nil => simp [poolStep, hw, hq, List.length_set]
      | cons x rest => simp [poolStep, hw, hq, List.length_set]
    | busy x => simp [poolStep, hw, List.length_set]

theorem poolRun_workers_length (o : String → Option RecognitionResult)
    (sched : List Nat) (s : PoolState) :
    (poolRun o s sched).workers.length = s.workers.length := by
  induction sched generalizing s with
  | nil => rfl
  | cons i sch ih =>
    calc (poolRun o (poolStep o s i) sch).workers.length
        = (poolStep o s i).workers.length := ih _
      _ = s.workers.length := poolStep_workers_length o s i

theorem busyIds_of_allFinished (s : PoolState) (h : allFinished s) :
    busyIds s.workers = [] := by
  apply List.filterMap_eq_nil_iff.mpr
  intro w hw
  rw [h w hw]

/-- Terminal characterization: once every worker has joined, the
submission log is exactly the ids of the retryable items (in queue
order), and the component state is the initial list with every
retryable item resolved per the collaborator and every other item
untouched. -/
theorem pool_terminal_char (o : String → Option RecognitionResult)
    (files0 : List ImageFileState) (sched : List Nat)
    (hnd : (files0.map (fun f => f.id)).Nodup)
    (hfin : allFinished (poolRun o (poolInit files0) sched)) :
    (poolRun o (poolInit files0) sched).calls
      = (filesToProcess files0).map (fun f => f.id) ∧
    (poolRun o (poolInit files0) sched).files
      = files0.map (fun f => if isRetryable f then applyOutcome o f else f) := by
  have hinv := poolRun_inv o files0 hnd sched (poolInit files0)
    (poolInit_inv o files0)
  have hmemfin : WorkerPhase.finished
      ∈ (poolRun o (poolInit files0) sched).workers := by
    have hlen : (poolRun o (poolInit files0) sched).workers.length
        = CONCURRENCY_LIMIT := by
      rw [poolRun_workers_length]
      simp [poolInit]
    have hne : (poolRun o (poolInit files0) sched).workers ≠ [] := by
      intro h0
      rw [h0] at hlen
      simp [CONCURRENCY_LIMIT] at hlen
    obtain ⟨w, hw⟩ := List.exists_mem_of_ne_nil _ hne
    exact (hfin w hw) ▸ hw
  have hq : (poolRun o (poolInit files0) sched).queue = [] :=
    hinv.fin_queue hmemfin
  obtain ⟨n, hc, hqd⟩ := hinv.calls_queue
  have hlen2 : (filesToProcess files0).length ≤ n := by
    rw [hq] at hqd
    exact List.drop_eq_nil_iff.mp hqd.symm
  have hcalls : (poolRun o (poolInit files0) sched).calls
      = (filesToProcess files0).map (fun f => f.id) := by
    rw [hc, List.take_of_length_le (by simpa using hlen2)]
  refine ⟨hcalls, ?_⟩
  rw [hinv.files_char, busyIds_of_allFinished _ hfin, hcalls]
  apply List.map_congr_left
  intro f hf
  have hiff : f.id ∈ (filesToProcess files0).map (fun g => g.id)
      ↔ isRetryable f = true := by
    constructor
    · intro hmem
      obtain ⟨g, hg, hgid⟩ := List.mem_map.mp hmem
      have hgf : g ∈ files0 ∧ isRetryable g = true := List.mem_filter.mp hg
      have hge : g = f := List.inj_on_of_nodup_map hnd hgf.1 hf hgid
      rw [← hge]
      exact hgf.2
    · intro hr
      exact List.mem_map.mpr ⟨f, List.mem_filter.mpr ⟨hf, hr⟩, rfl⟩
  unfold overlayStatus
  rw [if_neg (List.not_mem_nil f.id)]
  exact if_congr hiff rfl rfl

/-! ## Theorems: live analysis loop -/

/-- C1: the reentrancy guard — while a recognition call is in flight
(`isProcessingFrame.current` set), a scheduled tick leaves the state
completely unchanged: no frame capture, no collaborator call, nothing
queued.  Consequently, in the run "arm, tick, tick, slow call resolves,
tick" (three scheduled periods, the first call still unresolved at the
second tick) exactly 2 collaborator invocations occur. -/
theorem C1_reentrancy_guard (s : LiveState) (v : Option VideoElement)
    (ctx : Bool) (h : s.processing = true) :
    liveStep s (.tick v ctx) = s ∧
    ∀ r : RecognitionResult,
      (liveRun liveInit
        [.toggleClick, .tick (some readyVideo) true,
         .tick (some readyVideo) true, .resolveOk r,
         .tick (some readyVideo) true]).invocations = 2 := by
  constructor
  · show (if s.armed = false then s else if s.processing then s else _) = s
    by_cases ha : s.armed = false
    · rw [if_pos ha]
    · rw [if_neg ha, if_pos (by simp [h])]
  · intro r
    simp [liveRun, liveStep, liveInit, captureFrame, readyVideo, toDataURL]

/-- Witness for C1: the guard at a concrete in-flight state, and the
slow-call scenario at a concrete result. -/
theorem C1_reentrancy_guard_witness :
    liveStep
      { isAnalyzing := true, armed := true, processing := true,
        inFlight := true, detectedFaces := [], personCount := 0,
        errorMsg := none, captures := 1, invocations := 1 }
      (.tick (some readyVideo) true)
      = { isAnalyzing := true, armed := true, processing := true,
          inFlight := true, detectedFaces := [], personCount := 0,
          errorMsg := none, captures := 1, invocations := 1 } ∧
    (liveRun liveInit
      [.toggleClick, .tick (some readyVideo) true,
       .tick (some readyVideo) true, .resolveOk ⟨[], 1⟩,
       .tick (some readyVideo) true]).invocations = 2 := by
  have h := C1_reentrancy_guard
    { isAnalyzing := true, armed := true, processing := true,
      inFlight := true, detectedFaces := [], personCount := 0,
      errorMsg := none, captures := 1, invocations := 1 }
    (some readyVideo) true rfl
  exact ⟨h.1, h.2 ⟨[], 1⟩⟩

theorem liveStep_unarmed_keeps_display (s : LiveState) (e : LiveEvent)
    (hA : s.armed = false) (he : e ≠ .toggleClick) :
    (liveStep s e).armed = false ∧
    (liveStep s e).detectedFaces = s.detectedFaces ∧
    (liveStep s e).personCount = s.personCount ∧
    (liveStep s e).invocations = s.invocations ∧
    (liveStep s e).captures = s.captures := by
  cases e with
  | toggleClick => exact absurd rfl he
  | tick v ctx => simp [liveStep, hA]
  | resolveOk r =>
    by_cases hf : s.inFlight = true <;> simp [liveStep, hf, hA]
  | resolveErr m =>
    by_cases hf : s.inFlight = true <;> simp [liveStep, hf, hA]

/-- C2: stopping live analysis (a) clears the displayed face list and
person count immediately and disarms the loop; (b) from any disarmed
state with an empty display, any run of ticks and call deliveries that
contains no new analysis toggle keeps the display empty (no tick fires,
results of still in-flight calls are discarded on delivery); (c) a stop
issued immediately after a start, before the first tick, yields zero
collaborator invocations, zero captures and an empty display; (d) when
the loop is disarmed, a resolving in-flight call never changes the
displayed faces or count. -/
theorem C2_stop_clears_display :
    (∀ s : LiveState, s.isAnalyzing = true →
      (liveStep s .toggleClick).detectedFaces = [] ∧
      (liveStep s .toggleClick).personCount = 0 ∧
      (liveStep s .toggleClick).armed = false ∧
      (liveStep s .toggleClick).isAnalyzing = false) ∧
    (∀ (s : LiveState) (es : List LiveEvent),
      s.armed = false → s.detectedFaces = [] → s.personCount = 0 →
      LiveEvent.toggleClick ∉ es →
      (liveRun s es).detectedFaces = [] ∧ (liveRun s es).personCount = 0 ∧
      (liveRun s es).invocations = s.invocations ∧
      (liveRun s es).captures = s.captures) ∧
    ((liveRun liveInit [.toggleClick, .toggleClick]).invocations = 0 ∧
     (liveRun liveInit [.toggleClick, .toggleClick]).captures = 0 ∧
     (liveRun liveInit [.toggleClick, .toggleClick]).detectedFaces = [] ∧
     (liveRun liveInit [.toggleClick, .toggleClick]).personCount = 0) ∧
    (∀ (s : LiveState) (r : RecognitionResult), s.armed = false →
      (liveStep s (.resolveOk r)).detectedFaces = s.detectedFaces ∧
      (liveStep s (.resolveOk r)).personCount = s.personCount) := by
  refine ⟨?_, ?_, ?_, ?_⟩
  · intro s hA
    simp [liveStep, hA]
  · intro s es
    induction es generalizing s with
    | nil => intro _ hf hc _; exact ⟨hf, hc, rfl, rfl⟩
    | cons e es ih =>
      intro hA hf hc hno
      have hne : e ≠ .toggleClick := fun h => hno (h ▸ List.mem_cons_self e es)
      have hstep := liveStep_unarmed_keeps_display s e hA hne
      have hrec := ih (liveStep s e) hstep.1 (hstep.2.1.trans hf)
        (hstep.2.2.1.trans hc) (fun h => hno (List.mem_cons_of_mem e h))
      exact ⟨hrec.1, hrec.2.1, hrec.2.2.1.trans hstep.2.2.2.1,
        hrec.2.2.2.trans hstep.2.2.2.2⟩
  · refine ⟨rfl, rfl, rfl, rfl⟩
  · intro s r hA
    by_cases hf : s.inFlight = true <;> simp [liveStep, hf, hA]

/-- Witness for C2: concrete instances of all four parts — stop from an
armed state with faces on screen, a post-stop run of ticks and a stale
delivery, the start-stop-before-first-tick run, and a stale delivery at
a concrete disarmed state. -/
theorem C2_stop_clears_display_witness :
    (liveStep
      { isAnalyzing := true, armed := true, processing := true,
        inFlight := true,
        detectedFaces := [⟨⟨0, 0, 1, 1⟩, "Alice", none, 1⟩],
        personCount := 1, errorMsg := none, captures := 2,
        invocations := 2 } .toggleClick).detectedFaces = [] ∧
    (liveRun
      { isAnalyzing := false, armed := false, processing := true,
        inFlight := true, detectedFaces := [], personCount := 0,
        errorMsg := none, captures := 2, invocations := 2 }
      [.tick (some readyVideo) true, .resolveOk ⟨[⟨⟨0, 0, 1, 1⟩, "Bob", none, 1⟩], 4⟩,
       .tick (some readyVideo) true]).detectedFaces = [] ∧
    (liveRun liveInit [.toggleClick, .toggleClick]).invocations = 0 := by
  have h := C2_stop_clears_display
  refine ⟨?_, ?_, h.2.2.1.1⟩
  · exact (h.1
      { isAnalyzing := true, armed := true, processing := true,
        inFlight := true,
        detectedFaces := [⟨⟨0, 0, 1, 1⟩, "Alice", none, 1⟩],
        personCount := 1, errorMsg := none, captures := 2,
        invocations := 2 } rfl).1
  · exact (h.2.1
      { isAnalyzing := false, armed := false, processing := true,
        inFlight := true, detectedFaces := [], personCount := 0,
        errorMsg := none, captures := 2, invocations := 2 }
      [.tick (some readyVideo) true, .resolveOk ⟨[⟨⟨0, 0, 1, 1⟩, "Bob", none, 1⟩], 4⟩,
       .tick (some readyVideo) true] rfl rfl rfl (by decide)).1

/-! ## Theorems: batch pipeline -/

/-- C3: for every run of `handleAnalyzeBatch` (any collaborator
behaviour, any interleaving of the workers) over items with duplicate
free ids, once the run completes (all workers joined): the pool was a
fixed set of `CONCURRENCY_LIMIT = 3` workers over the shared FIFO queue;
the final item list is the initial one with exactly the
pending-or-error-at-invocation items resolved; each such item ends Done
with a result or Error (none remains Pending or Processing); every other
item is untouched; and no item id is submitted to the collaborator more
than once within the run. -/
theorem C3_batch_pool_drains (o : String → Option RecognitionResult)
    (files0 : List ImageFileState) (sched : List Nat)
    (hnd : (files0.map (fun f => f.id)).Nodup)
    (hfin : allFinished (poolRun o (poolInit files0) sched)) :
    (poolInit files0).workers = List.replicate CONCURRENCY_LIMIT .idle ∧
    (poolRun o (poolInit files0) sched).files
      = files0.map (fun f => if isRetryable f then applyOutcome o f else f) ∧
    (∀ f ∈ files0, isRetryable f = true →
      ∃ g ∈ (poolRun o (poolInit files0) sched).files, g.id = f.id ∧
        ((g.status = .done ∧ ∃ r, g.result = some r) ∨ g.status = .error)) ∧
    (∀ f ∈ files0, isRetryable f = false →
      f ∈ (poolRun o (poolInit files0) sched).files) ∧
    (∀ id, (poolRun o (poolInit files0) sched).calls.count id ≤ 1) := by
  obtain ⟨hcalls, hfiles⟩ := pool_terminal_char o files0 sched hnd hfin
  refine ⟨rfl, hfiles, ?_, ?_, ?_⟩
  · intro f hf hr
    refine ⟨applyOutcome o f, ?_, applyOutcome_id o f, ?_⟩
    · rw [hfiles]
      have hmem := List.mem_map_of_mem
        (fun g => if isRetryable g then applyOutcome o g else g) hf
      simpa only [hr, if_true] using hmem
    · cases ho : o f.id with
      | some r =>
        left
        refine ⟨by simp [applyOutcome, ho], r, by simp [applyOutcome, ho]⟩
      | none =>
        right
        simp [applyOutcome, ho]
  · intro f hf hr
    rw [hfiles]
    have hmem := List.mem_map_of_mem
      (fun g => if isRetryable g then applyOutcome o g else g) hf
    simpa only [hr, Bool.false_eq_true, if_false] using hmem
  · intro id
    rw [hcalls]
    exact List.nodup_iff_count_le_one.mp (filesToProcess_ids_nodup files0 hnd) id

/-- Seven pending items with distinct ids. -/
def w3files : List ImageFileState :=
  [⟨"a", ⟨"a", 0⟩, .pending, none, (0, 0)⟩,
   ⟨"b", ⟨"b", 0⟩, .pending, none, (0, 0)⟩,
   ⟨"c", ⟨"c", 0⟩, .pending, none, (0, 0)⟩,
   ⟨"d", ⟨"d", 0⟩, .pending, none, (0, 0)⟩,
   ⟨"e", ⟨"e", 0⟩, .pending, none, (0, 0)⟩,
   ⟨"f", ⟨"f", 0⟩, .pending, none, (0, 0)⟩,
   ⟨"g", ⟨"g", 0⟩, .pending, none, (0, 0)⟩]

/-- A collaborator that rejects item "c" and succeeds elsewhere. -/
def w3outcome : String → Option RecognitionResult :=
  fun id => if id = "c" then none else some ⟨[], 1⟩

/-- A round-robin schedule driving the three workers to completion over
`w3files`. -/
def w3sched : List Nat :=
  [0, 1, 2, 0, 1, 2, 0, 1, 2, 0, 1, 2, 0, 1, 2, 0, 1, 2, 0, 1, 2]

/-- Witness for C3: 7 pending items, pool size 3, a schedule that runs
to completion; all items end done or error and no id is submitted
twice. -/
theorem C3_batch_pool_drains_witness :
    allFinished (poolRun w3outcome (poolInit w3files) w3sched) ∧
    (poolRun w3outcome (poolInit w3files) w3sched).files
      = w3files.map
          (fun f => if isRetryable f then applyOutcome w3outcome f else f) ∧
    (∀ id, (poolRun w3outcome (poolInit w3files) w3sched).calls.count id ≤ 1) := by
  have h := C3_batch_pool_drains w3outcome w3files w3sched (by decide) (by decide)
  exact ⟨by decide, h.2.1, h.2.2.2.2⟩

/-- C4: a (re-)invocation of the pipeline submits to the collaborator
exactly the ids of the items that are Pending or Error at invocation
time, in list order; items already Done are never submitted; the number
of collaborator invocations is the number of Pending/Error items. -/
theorem C4_rerun_submits_pending_error (o : String → Option RecognitionResult)
    (files0 : List ImageFileState) (sched : List Nat)
    (hnd : (files0.map (fun f => f.id)).Nodup)
    (hfin : allFinished (poolRun o (poolInit files0) sched)) :
    (poolRun o (poolInit files0) sched).calls
      = (files0.filter isRetryable).map (fun f => f.id) ∧
    (∀ f ∈ files0, f.status = .done →
      f.id ∉ (poolRun o (poolInit files0) sched).calls) ∧
    (poolRun o (poolInit files0) sched).calls.length
      = (files0.filter isRetryable).length := by
  obtain ⟨hcalls, _⟩ := pool_terminal_char o files0 sched hnd hfin
  refine ⟨hcalls, ?_, by rw [hcalls]; simp [filesToProcess]⟩
  intro f hf hdone hmem
  rw [hcalls] at hmem
  obtain ⟨g, hg, hgid⟩ := List.mem_map.mp hmem
  have hgf : g ∈ files0 ∧ isRetryable g = true := List.mem_filter.mp hg
  have hge : g = f := List.inj_on_of_nodup_map hnd hgf.1 hf hgid
  have hfr : isRetryable f = false := by
    unfold isRetryable
    rw [hdone]
    rfl
  rw [hge, hfr] at hgf
  exact Bool.noConfusion hgf.2

/-- Five Done items (with results) and two Error items. -/
def w4files : List ImageFileState :=
  [⟨"a", ⟨"a", 0⟩, .done, some ⟨[], 1⟩, (0, 0)⟩,
   ⟨"b", ⟨"b", 0⟩, .done, some ⟨[], 1⟩, (0, 0)⟩,
   ⟨"c", ⟨"c", 0⟩, .done, some ⟨[], 2⟩, (0, 0)⟩,
   ⟨"d", ⟨"d", 0⟩, .done, some ⟨[], 1⟩, (0, 0)⟩,
   ⟨"e", ⟨"e", 0⟩, .done, some ⟨[], 1⟩, (0, 0)⟩,
   ⟨"f", ⟨"f", 0⟩, .error, none, (0, 0)⟩,
   ⟨"g", ⟨"g", 0⟩, .error, none, (0, 0)⟩]

def w4outcome : String → Option RecognitionResult :=
  fun _ => some ⟨[], 2⟩

def w4sched : List Nat := [0, 1, 0, 1, 0, 1, 2]

/-- Witness for C4: re-running after 5 Done + 2 Error performs exactly 2
collaborator invocations, namely the two Error items. -/
theorem C4_rerun_submits_pending_error_witness :
    allFinished (poolRun w4outcome (poolInit w4files) w4sched) ∧
    (poolRun w4outcome (poolInit w4files) w4sched).calls = ["f", "g"] ∧
    (poolRun w4outcome (poolInit w4files) w4sched).calls.length = 2 := by
  have h := C4_rerun_submits_pending_error w4outcome w4files w4sched
    (by decide) (by decide)
  refine ⟨by decide, ?_, ?_⟩
  · rw [h.1]; decide
  · rw [h.2.2]; decide

end FaceRec
